import Mathlib

/-!
Verification of the `linurgy` line-ending editor.

The definitions below are a shallow embedding of `src/editor.rs` and
`src/factory.rs`.  Text is modeled as `List Char`; the `u8` run counter is
modeled as `Nat` with explicit `% 256` at each increment (Rust release-mode
wrapping semantics; debug builds would panic at the wrap point, which is
noted where relevant).  Byte lengths (`String::len`, `String::truncate`)
are computed from `Char.utf8Size`.
-/

namespace Linurgy

/-- `NewlineType` from `src/editor.rs`: the two supported line endings. -/
inductive NewlineType where
  | Lf
  | Crlf
deriving DecidableEq, Repr

/-- `NewlineType::as_str` from `src/editor.rs`. -/
def NewlineType.as_str : NewlineType → List Char
  | .Lf => ['\n']
  | .Crlf => ['\r', '\n']

/-- `Editor` from `src/editor.rs`: replacement text, trigger count
(`newlines: u8`, modeled as `Nat`; the real domain is `0..=255`), and the
line-ending style. -/
structure Editor where
  replace : List Char
  newlines : Nat
  line_ending : NewlineType
deriving DecidableEq, Repr

/-- `Editor::new` from `src/editor.rs`. -/
def Editor.new (replace : List Char) (newlines : Nat) (line_ending : NewlineType) : Editor :=
  { replace := replace, newlines := newlines, line_ending := line_ending }

/-- `Editor::default` from `src/editor.rs`: empty replacement, trigger 0, LF. -/
def Editor.default : Editor :=
  { replace := [], newlines := 0, line_ending := NewlineType.Lf }

/-- A `for _ in 0..n { output.push_str(s) }` loop: append `n` copies of `s`
to `out`.  Used by `handle_char_lf`/`handle_char_crlf`, the trailing flushes
of `edit_lf`/`edit_crlf`/`edit_buffered`, and the factory's string builders. -/
def pushCopies : List Char → List Char → Nat → List Char
  | out, _, 0 => out
  | out, s, n + 1 => pushCopies (out ++ s) s n

/-- `Editor::handle_newline` from `src/editor.rs`:
`nl_count += 1; if nl_count == self.newlines { push replace; 0 } else { nl_count }`.
The increment is `u8` arithmetic, hence the `% 256` (release-mode wrap;
debug builds panic on overflow). -/
def handle_newline (e : Editor) (out : List Char) (nl_count : Nat) : List Char × Nat :=
  let n := (nl_count + 1) % 256
  if n = e.newlines then (out ++ e.replace, 0) else (out, n)

/-- `Editor::handle_char_lf` from `src/editor.rs`: flush the pending run as
literal `'\n'` characters, then push the character; counter resets to 0. -/
def handle_char_lf (out : List Char) (c : Char) (nl_count : Nat) : List Char × Nat :=
  (pushCopies out ['\n'] nl_count ++ [c], 0)

/-- `Editor::handle_char_crlf` from `src/editor.rs`: flush the pending run as
literal `"\r\n"` sequences, then push the character; counter resets to 0. -/
def handle_char_crlf (out : List Char) (c : Char) (nl_count : Nat) : List Char × Nat :=
  (pushCopies out ['\r', '\n'] nl_count ++ [c], 0)

/-- One iteration of the `edit_lf` loop body (the `match c` inside the
`for c in input.chars()` loop of `src/editor.rs`). -/
def lfStep (e : Editor) (st : List Char × Nat) (c : Char) : List Char × Nat :=
  if c = '\n' then handle_newline e st.1 st.2
  else handle_char_lf st.1 c st.2

/-- One iteration of the `edit_crlf` loop body (the `match c` inside the
`for c in input.chars()` loop of `src/editor.rs`).  Note that the `'\r'` arm
of the source returns `nl_count` unchanged and pushes nothing: a carriage
return is skipped entirely. -/
def crlfStep (e : Editor) (st : List Char × Nat) (c : Char) : List Char × Nat :=
  if c = '\r' then st
  else if c = '\n' then handle_newline e st.1 st.2
  else handle_char_crlf st.1 c st.2

/-- `Editor::edit_lf` from `src/editor.rs`: fold the per-character step over
the input starting from an empty output and counter 0, then flush the
trailing run as literal `'\n'` characters. -/
def edit_lf (e : Editor) (input : List Char) : List Char :=
  let st := input.foldl (lfStep e) ([], 0)
  pushCopies st.1 ['\n'] st.2

/-- `Editor::edit_crlf` from `src/editor.rs`: fold the per-character step
over the input starting from an empty output and counter 0, then flush the
trailing run as literal `"\r\n"` sequences. -/
def edit_crlf (e : Editor) (input : List Char) : List Char :=
  let st := input.foldl (crlfStep e) ([], 0)
  pushCopies st.1 ['\r', '\n'] st.2

/-- `Editor::edit` from `src/editor.rs`: dispatch on the line-ending style. -/
def edit (e : Editor) (input : List Char) : List Char :=
  match e.line_ending with
  | NewlineType.Lf => edit_lf e input
  | NewlineType.Crlf => edit_crlf e input

/-- `Editor::edit` takes `&self` and returns only the fresh output string;
the borrowed configuration is returned unchanged.  This threaded form makes
the reuse claims (C9) statable. -/
def edit_call (e : Editor) (input : List Char) : Editor × List Char :=
  (e, edit e input)

/-- UTF-8 byte length of a character list (`String::len` in the source). -/
def utf8Len : List Char → Nat
  | [] => 0
  | c :: cs => c.utf8Size + utf8Len cs

/-- `BufRead::read_line` on an in-memory stream: split off the prefix up to
and including the first `'\n'` (or the whole remainder if none), returning
`(line, rest)`.  The terminating `'\n'` stays in the line, as in Rust. -/
def read_line : List Char → List Char × List Char
  | [] => ([], [])
  | c :: rest =>
    if c = '\n' then ([c], rest)
    else (c :: (read_line rest).1, (read_line rest).2)

/-- `String::ends_with('\n')` on the line buffer. -/
def ends_with_newline (l : List Char) : Bool :=
  match l.getLast? with
  | some c => c == '\n'
  | none => false

/-- Keep the longest prefix whose UTF-8 byte length fits in `m` bytes: the
effect of `String::truncate(m)` when `m` falls on a character boundary (the
source only reaches a non-boundary `m` for CRLF lines ending in a multi-byte
character plus a bare `'\n'`, where Rust would panic). -/
def truncate_go : List Char → Nat → List Char
  | [], _ => []
  | c :: cs, m => if c.utf8Size ≤ m then c :: truncate_go cs (m - c.utf8Size) else []

/-- `buf.truncate(len - newline_len)` from `edit_buffered` in
`src/editor.rs`.  `len - newline_len` is `usize` subtraction: when
`newline_len > len` it wraps to a huge value (release mode), making the
truncation a no-op; debug builds panic on the underflow. -/
def buf_truncate (buf : List Char) (nl_len : Nat) : List Char :=
  let len := utf8Len buf
  if nl_len ≤ len then truncate_go buf (len - nl_len) else buf

/-- The loop of `Editor::edit_buffered` from `src/editor.rs`, with the
line-ending pair `(newline_len, newline_str)` precomputed by the caller.
State: `n` is the `newlines: u8` counter (modeled mod 256), `out` the bytes
written to the sink so far.  Each iteration reads one line:
  - EOF: flush the pending run as literal newline sequences and stop;
  - a line whose byte length equals `newline_len`: pure run increment;
  - any other line: flush the pending run, then if the line ends with
    `'\n'` count it and truncate it off, then write the line;
then, in either non-EOF case, if the counter equals the trigger, write the
replacement and reset.
Recursion is on a fuel argument seeded with the input length; `read_line`
consumes at least one character per iteration, so the fuel never runs out
before EOF (the `0` fallback mirrors the EOF flush and is unreachable from
`edit_buffered`). -/
def edit_buffered_go (e : Editor) (nl_len : Nat) (nl_str : List Char) :
    Nat → List Char → Nat → List Char → List Char
  | _, [], n, out => pushCopies out nl_str n
  | 0, _ :: _, n, out => pushCopies out nl_str n
  | fuel + 1, c :: cs, n, out =>
    let buf := (read_line (c :: cs)).1
    let rest := (read_line (c :: cs)).2
    let st :=
      if utf8Len buf = nl_len then
        (out, (n + 1) % 256)
      else
        let out1 := pushCopies out nl_str n
        if ends_with_newline buf then (out1 ++ buf_truncate buf nl_len, 1)
        else (out1 ++ buf, 0)
    let st2 := if st.2 = e.newlines then (st.1 ++ e.replace, 0) else st
    edit_buffered_go e nl_len nl_str fuel rest st2.2 st2.1

/-- `Editor::edit_buffered` from `src/editor.rs`, with the sink's byte
stream materialized as the returned list (every write in the source is an
append to the sink; an I/O-error-free run is assumed, which is the only
behavior the functional claims speak about). -/
def edit_buffered (e : Editor) (input : List Char) : List Char :=
  let p : Nat × List Char :=
    match e.line_ending with
    | NewlineType.Lf => (1, ['\n'])
    | NewlineType.Crlf => (2, ['\r', '\n'])
  edit_buffered_go e p.1 p.2 input.length input 0 []

/-- `EditType` from `src/factory.rs`: which action to implement when editing. -/
inductive EditType where
  | Append
  | Insert
  | Replace
deriving DecidableEq, Repr

/-- `Factory` from `src/factory.rs`. -/
structure Factory where
  text : List Char
  edit_type : EditType
  newline : NewlineType
  trigger : Nat
deriving DecidableEq, Repr

/-- `Factory::append_string` from `src/factory.rs`: starting from an empty
buffer, push `trigger` copies of the newline literal, then the text. -/
def Factory.append_string (f : Factory) : List Char :=
  pushCopies [] f.newline.as_str f.trigger ++ f.text

/-- `Factory::insert_string` from `src/factory.rs`: starting from an empty
buffer, push the text, then `trigger` copies of the newline literal. -/
def Factory.insert_string (f : Factory) : List Char :=
  pushCopies f.text f.newline.as_str f.trigger

/-- `Factory::create_editor` from `src/factory.rs`. -/
def Factory.create_editor (f : Factory) : Editor :=
  let replace :=
    match f.edit_type with
    | EditType.Append => f.append_string
    | EditType.Insert => f.insert_string
    | EditType.Replace => f.text
  Editor.new replace f.trigger f.newline

/-- `Factory::build` from `src/factory.rs`. -/
def Factory.build (text : List Char) (trigger : Nat) (edit_type : EditType)
    (newline : NewlineType) : Editor :=
  (Factory.mk text edit_type newline trigger).create_editor

/-- `factory::appender` from `src/factory.rs`. -/
def appender (text : List Char) (newlines : Nat) : Editor :=
  Factory.build text newlines EditType.Append NewlineType.Lf

/-- `factory::inserter` from `src/factory.rs`. -/
def inserter (text : List Char) (newlines : Nat) : Editor :=
  Factory.build text newlines EditType.Insert NewlineType.Lf

/-- `factory::replacer` from `src/factory.rs`. -/
def replacer (text : List Char) (newlines : Nat) : Editor :=
  Factory.build text newlines EditType.Replace NewlineType.Lf

/-- `factory::appender_crlf` from `src/factory.rs`. -/
def appender_crlf (text : List Char) (newlines : Nat) : Editor :=
  Factory.build text newlines EditType.Append NewlineType.Crlf

/-- `factory::inserter_crlf` from `src/factory.rs`. -/
def inserter_crlf (text : List Char) (newlines : Nat) : Editor :=
  Factory.build text newlines EditType.Insert NewlineType.Crlf

/-- `factory::replacer_crlf` from `src/factory.rs`. -/
def replacer_crlf (text : List Char) (newlines : Nat) : Editor :=
  Factory.build text newlines EditType.Replace NewlineType.Crlf

example : edit (Editor.new ['-'] 1 NewlineType.Lf) ['f', 'o', 'o', '\n', 'b', 'a', 'r']
    = ['f', 'o', 'o', '-', 'b', 'a', 'r'] := by decide

example : edit (Editor.new ['-', '\n'] 1 NewlineType.Lf)
    ['f', 'o', 'o', '\n', '\n', '\n']
    = ['f', 'o', 'o', '-', '\n', '-', '\n', '-', '\n'] := by decide

example : edit (Editor.new ['\t'] 1 NewlineType.Crlf)
    ['f', 'o', 'o', '\r', '\n', 'b', 'a', 'r']
    = ['f', 'o', 'o', '\t', 'b', 'a', 'r'] := by decide

example : edit_buffered (Editor.new ['-'] 1 NewlineType.Lf)
    ['f', 'o', 'o', '\n', 'b', 'a', 'r']
    = ['f', 'o', 'o', '-', 'b', 'a', 'r'] := by decide

example : edit_buffered (Editor.new ['\n'] 2 NewlineType.Lf)
    ['f', 'o', 'o', '\n', '\n', 'b', 'a', 'r', '\n', '\n']
    = ['f', 'o', 'o', '\n', 'b', 'a', 'r', '\n'] := by decide

example : edit_buffered (Editor.new ['-', '\r', '\n'] 1 NewlineType.Crlf)
    ['f', 'o', 'o', '\r', '\n', 'b', 'a', 'r', '\r', '\n']
    = ['f', 'o', 'o', '-', '\r', '\n', 'b', 'a', 'r', '-', '\r', '\n'] := by decide

example : edit_buffered (Editor.new ['X'] 0 NewlineType.Lf) ['f', 'o', 'o']
    = ['f', 'o', 'o', 'X'] := by decide

example : edit_buffered (Editor.new ['X'] 0 NewlineType.Lf) ['a'] = ['\n'] := by decide

example : edit_buffered (Editor.new ['X'] 2 NewlineType.Lf)
    ['f', 'o', 'o', '\n', 'a'] = ['f', 'o', 'o', 'X'] := by decide

example : edit_buffered (Editor.new ['-'] 1 NewlineType.Crlf)
    ['a', '\n', 'b'] = ['-', 'b'] := by decide

example : edit_buffered (Editor.new ['X'] 9 NewlineType.Crlf)
    ['\n'] = ['\n', '\r', '\n'] := by decide

set_option maxRecDepth 100000 in
example : edit (Editor.new ['X'] 0 NewlineType.Lf) (List.replicate 256 '\n')
    = ['X'] := by decide

/-! Helper lemmas about the embedded operations. -/

theorem pushCopies_eq (s : List Char) (n : Nat) :
    ∀ out : List Char, pushCopies out s n = out ++ (List.replicate n s).flatten := by
  induction n with
  | zero => intro out; simp [pushCopies]
  | succ n ih =>
    intro out
    simp [pushCopies, ih, List.replicate_succ, List.append_assoc]

theorem pushCopies_single (c : Char) (n : Nat) :
    ∀ out : List Char, pushCopies out [c] n = out ++ List.replicate n c := by
  induction n with
  | zero => intro out; simp [pushCopies]
  | succ n ih =>
    intro out
    simp [pushCopies, ih, List.replicate_succ]

theorem utf8Len_append (a b : List Char) : utf8Len (a ++ b) = utf8Len a + utf8Len b := by
  induction a with
  | nil => simp [utf8Len]
  | cons c cs ih => simp [utf8Len, ih, Nat.add_assoc]

theorem utf8Len_cons_pos (c : Char) (cs : List Char) : 0 < utf8Len (c :: cs) :=
  Nat.lt_of_lt_of_le (Char.utf8Size_pos c) (by simp [utf8Len])

theorem lfStep_newline (e : Editor) (out : List Char) (n : Nat) :
    lfStep e (out, n) '\n' = handle_newline e out n := rfl

theorem handle_newline_fire {e : Editor} {n : Nat} (out : List Char)
    (h : (n + 1) % 256 = e.newlines) :
    handle_newline e out n = (out ++ e.replace, 0) := by
  unfold handle_newline
  rw [if_pos h]

theorem handle_newline_count {e : Editor} {n : Nat} (out : List Char)
    (h : ¬ (n + 1) % 256 = e.newlines) :
    handle_newline e out n = (out, (n + 1) % 256) := by
  unfold handle_newline
  rw [if_neg h]

theorem lf_run_count (e : Editor) (h255 : e.newlines ≤ 255) :
    ∀ (k n : Nat) (out : List Char), n + k < e.newlines →
      List.foldl (lfStep e) (out, n) (List.replicate k '\n') = (out, n + k) := by
  intro k
  induction k with
  | zero => intro n out _; simp
  | succ k ih =>
    intro n out h
    have h1 : (n + 1) % 256 = n + 1 := Nat.mod_eq_of_lt (by omega)
    have hne : ¬ (n + 1) % 256 = e.newlines := by omega
    rw [List.replicate_succ, List.foldl_cons, lfStep_newline,
      handle_newline_count out hne, h1, ih (n + 1) out (by omega)]
    congr 1
    omega

theorem lf_run_fire (e : Editor) (h255 : e.newlines ≤ 255) :
    ∀ (k n : Nat) (out : List Char), 0 < k → n + k = e.newlines →
      List.foldl (lfStep e) (out, n) (List.replicate k '\n') = (out ++ e.replace, 0) := by
  intro k
  induction k with
  | zero => intro n out hk _; omega
  | succ k ih =>
    intro n out _ heq
    rw [List.replicate_succ, List.foldl_cons, lfStep_newline]
    by_cases hk0 : k = 0
    · subst hk0
      have hfire : (n + 1) % 256 = e.newlines := by
        rw [Nat.mod_eq_of_lt (by omega)]
        omega
      rw [handle_newline_fire out hfire]
      simp
    · have h1 : (n + 1) % 256 = n + 1 := Nat.mod_eq_of_lt (by omega)
      have hne : ¬ (n + 1) % 256 = e.newlines := by omega
      rw [handle_newline_count out hne, h1]
      exact ih (n + 1) out (Nat.pos_of_ne_zero hk0) (by omega)

theorem lf_run_content (e : Editor) :
    ∀ (s : List Char), '\n' ∉ s → ∀ out : List Char,
      List.foldl (lfStep e) (out, 0) s = (out ++ s, 0) := by
  intro s
  induction s with
  | nil => intro _ out; simp
  | cons c s ih =>
    intro h out
    have hc : ¬ c = '\n' := fun hc => h (hc ▸ List.mem_cons_self c s)
    have hs : '\n' ∉ s := fun hm => h (List.mem_cons_of_mem c hm)
    have hstep : lfStep e (out, 0) c = (out ++ [c], 0) := by
      simp [lfStep, hc, handle_char_lf, pushCopies]
    rw [List.foldl_cons, hstep, ih hs (out ++ [c])]
    simp

theorem read_line_no_nl : ∀ s : List Char, '\n' ∉ s → read_line s = (s, []) := by
  intro s
  induction s with
  | nil => intro _; rfl
  | cons c cs ih =>
    intro h
    have hc : ¬ c = '\n' := fun hc => h (hc ▸ List.mem_cons_self c cs)
    have hs : '\n' ∉ cs := fun hm => h (List.mem_cons_of_mem c hm)
    simp [read_line, hc, ih hs]

theorem read_line_split :
    ∀ (s : List Char), '\n' ∉ s → ∀ rest : List Char,
      read_line (s ++ '\n' :: rest) = (s ++ ['\n'], rest) := by
  intro s
  induction s with
  | nil => intro _ rest; simp [read_line]
  | cons c cs ih =>
    intro h rest
    have hc : ¬ c = '\n' := fun hc => h (hc ▸ List.mem_cons_self c cs)
    have hs : '\n' ∉ cs := fun hm => h (List.mem_cons_of_mem c hm)
    simp [read_line, hc, ih hs rest]

theorem split_first_nl :
    ∀ l : List Char, '\n' ∈ l → ∃ s rest, '\n' ∉ s ∧ l = s ++ '\n' :: rest := by
  intro l
  induction l with
  | nil => intro h; cases h
  | cons c cs ih =>
    intro h
    by_cases hc : c = '\n'
    · exact ⟨[], cs, by simp, by simp [hc]⟩
    · have hm : '\n' ∈ cs := by
        cases List.mem_cons.mp h with
        | inl h0 => exact absurd h0.symm hc
        | inr h0 => exact h0
      obtain ⟨s, rest, hns, heq⟩ := ih hm
      exact ⟨c :: s, rest, by simp [hns, Ne.symm hc], by simp [heq]⟩

theorem getLast?_mem_of_eq {l : List Char} {c : Char} (h : l.getLast? = some c) : c ∈ l := by
  obtain ⟨hne, rfl⟩ := List.mem_getLast?_eq_getLast (x := c) h
  exact List.getLast_mem hne

theorem trunc_prefix :
    ∀ (s : List Char) (c : Char) (cs : List Char),
      truncate_go (s ++ c :: cs) (utf8Len s) = s := by
  intro s
  induction s with
  | nil =>
    intro c cs
    have : ¬ c.utf8Size ≤ 0 := Nat.not_le_of_lt (Char.utf8Size_pos c)
    simp [truncate_go, utf8Len, this]
  | cons d s ih =>
    intro c cs
    simp [truncate_go, utf8Len, Nat.le_add_right, Nat.add_sub_cancel_left, ih]

theorem ends_with_newline_concat (s : List Char) :
    ends_with_newline (s ++ ['\n']) = true := by
  unfold ends_with_newline
  rw [List.getLast?_concat]
  rfl

theorem ends_with_newline_no_nl {s : List Char} (h : '\n' ∉ s) :
    ends_with_newline s = false := by
  unfold ends_with_newline
  cases hl : s.getLast? with
  | none => rfl
  | some c =>
    have hmem : c ∈ s := getLast?_mem_of_eq hl
    have hc : ¬ (c = '\n') := fun hc => h (hc ▸ hmem)
    simp [hc]

theorem go_eof (e : Editor) (L : Nat) (S : List Char) :
    ∀ (fuel n : Nat) (out : List Char),
      edit_buffered_go e L S fuel [] n out = pushCopies out S n := by
  intro fuel n out
  cases fuel <;> rfl

theorem go_newline_line (e : Editor) (fuel n : Nat) (xs out : List Char) :
    edit_buffered_go e 1 ['\n'] (fuel + 1) ('\n' :: xs) n out =
      edit_buffered_go e 1 ['\n'] fuel xs
        (if (n + 1) % 256 = e.newlines then (out ++ e.replace, 0) else (out, (n + 1) % 256)).2
        (if (n + 1) % 256 = e.newlines then (out ++ e.replace, 0) else (out, (n + 1) % 256)).1 := by
  have hr : read_line ('\n' :: xs) = (['\n'], xs) := by simp [read_line]
  have hu : utf8Len ['\n'] = 1 := rfl
  by_cases hc : (n + 1) % 256 = e.newlines
  · simp [edit_buffered_go, hr, hu, hc]
  · simp [edit_buffered_go, hr, hu, hc]

theorem go_content_line (e : Editor) (fuel n : Nat) (a : Char) (s' rest out : List Char)
    (hns : '\n' ∉ a :: s') :
    edit_buffered_go e 1 ['\n'] (fuel + 1) (((a :: s') ++ ['\n']) ++ rest) n out =
      edit_buffered_go e 1 ['\n'] fuel rest
        (if (1 : Nat) = e.newlines then (0 : Nat) else 1)
        (if (1 : Nat) = e.newlines
          then pushCopies out ['\n'] n ++ (a :: s') ++ e.replace
          else pushCopies out ['\n'] n ++ (a :: s')) := by
  have hshape : ((a :: s') ++ ['\n']) ++ rest = a :: (s' ++ '\n' :: rest) := by simp
  rw [hshape]
  have hr : read_line (a :: (s' ++ '\n' :: rest)) = ((a :: s') ++ ['\n'], rest) := by
    rw [← List.cons_append]
    exact read_line_split (a :: s') hns rest
  have hulen : utf8Len ((a :: s') ++ ['\n']) = utf8Len (a :: s') + 1 := by
    rw [utf8Len_append]
    rfl
  have hne1 : ¬ utf8Len ((a :: s') ++ ['\n']) = 1 := by
    have := utf8Len_cons_pos a s'
    omega
  have hewn : ends_with_newline ((a :: s') ++ ['\n']) = true :=
    ends_with_newline_concat (a :: s')
  have htrunc : buf_truncate ((a :: s') ++ ['\n']) 1 = a :: s' := by
    unfold buf_truncate
    rw [hulen, if_pos (by omega), Nat.add_sub_cancel]
    have : (a :: s') ++ ['\n'] = (a :: s') ++ '\n' :: [] := rfl
    rw [this, trunc_prefix]
  have hr1 : (read_line (a :: (s' ++ '\n' :: rest))).1 = (a :: s') ++ ['\n'] := by rw [hr]
  have hr2 : (read_line (a :: (s' ++ '\n' :: rest))).2 = rest := by rw [hr]
  simp only [edit_buffered_go]
  rw [hr1, hr2, if_neg hne1, hewn, if_pos rfl, htrunc]
  by_cases h1 : (1 : Nat) = e.newlines
  · rw [if_pos h1, if_pos h1, if_pos h1]
  · rw [if_neg h1, if_neg h1, if_neg h1]

theorem go_final_line (e : Editor) (fuel n : Nat) (a : Char) (s' out : List Char)
    (hns : '\n' ∉ a :: s') (hlen : ¬ utf8Len (a :: s') = 1) :
    edit_buffered_go e 1 ['\n'] (fuel + 1) (a :: s') n out =
      (if (0 : Nat) = e.newlines
        then pushCopies out ['\n'] n ++ (a :: s') ++ e.replace
        else pushCopies out ['\n'] n ++ (a :: s')) := by
  have hr : read_line (a :: s') = (a :: s', []) := read_line_no_nl (a :: s') hns
  have hr1 : (read_line (a :: s')).1 = a :: s' := by rw [hr]
  have hr2 : (read_line (a :: s')).2 = [] := by rw [hr]
  have hewn : ends_with_newline (a :: s') = false := ends_with_newline_no_nl hns
  simp only [edit_buffered_go]
  rw [hr1, hr2, if_neg hlen, hewn]
  by_cases h0 : (0 : Nat) = e.newlines
  · simp [go_eof, pushCopies, ← h0]
  · simp [go_eof, pushCopies, h0]

theorem go_nl_run (e : Editor) (h255 : e.newlines ≤ 255) :
    ∀ (k fuel n : Nat) (out tail : List Char), k ≤ fuel → n + k < e.newlines →
      edit_buffered_go e 1 ['\n'] fuel (List.replicate k '\n' ++ tail) n out
        = edit_buffered_go e 1 ['\n'] (fuel - k) tail (n + k) out := by
  intro k
  induction k with
  | zero => intro fuel n out tail _ _; simp
  | succ k ih =>
    intro fuel n out tail hf h
    cases fuel with
    | zero => omega
    | succ f =>
      rw [List.replicate_succ, List.cons_append, go_newline_line]
      have h1 : (n + 1) % 256 = n + 1 := Nat.mod_eq_of_lt (by omega)
      have hne : ¬ (n + 1) % 256 = e.newlines := by omega
      rw [if_neg hne]
      show edit_buffered_go e 1 ['\n'] f (List.replicate k '\n' ++ tail) ((n + 1) % 256) out = _
      rw [h1, ih f (n + 1) out tail (by omega) (by omega),
        show f - k = f + 1 - (k + 1) by omega, show n + 1 + k = n + (k + 1) by omega]

theorem go_lf_sim (e : Editor) :
    ∀ (fuel : Nat) (input : List Char), input.length ≤ fuel →
      (input = [] ∨ input.getLast? = some '\n') →
      ∀ (n : Nat) (out : List Char),
        edit_buffered_go e 1 ['\n'] fuel input n out =
          pushCopies (List.foldl (lfStep e) (out, n) input).1 ['\n']
            (List.foldl (lfStep e) (out, n) input).2 := by
  intro fuel
  induction fuel with
  | zero =>
    intro input hlen _ n out
    have hnil : input = [] := List.length_eq_zero.mp (Nat.le_zero.mp hlen)
    subst hnil
    rfl
  | succ f ih =>
    intro input hlen hend n out
    cases input with
    | nil => rfl
    | cons c cs =>
      have hmem : '\n' ∈ c :: cs := by
        cases hend with
        | inl h => exact absurd h (List.cons_ne_nil c cs)
        | inr h => exact getLast?_mem_of_eq h
      obtain ⟨s, rest, hns, heq⟩ := split_first_nl (c :: cs) hmem
      have hrest_end : rest = [] ∨ rest.getLast? = some '\n' := by
        cases rest with
        | nil => exact Or.inl rfl
        | cons r rs =>
          refine Or.inr ?_
          have h2 : (c :: cs).getLast? = (r :: rs).getLast? := by
            rw [heq, List.getLast?_append_cons, List.getLast?_cons_cons]
          cases hend with
          | inl h => exact absurd h (List.cons_ne_nil c cs)
          | inr h =>
            rw [← h2]
            exact h
      have hrest_len : rest.length ≤ f := by
        have hl := congrArg List.length heq
        simp [List.length_append] at hl hlen
        omega
      rw [heq]
      cases s with
      | nil =>
        rw [List.nil_append, go_newline_line]
        by_cases hc : (n + 1) % 256 = e.newlines
        · rw [if_pos hc]
          show edit_buffered_go e 1 ['\n'] f rest 0 (out ++ e.replace) = _
          rw [ih rest hrest_len hrest_end 0 (out ++ e.replace), List.foldl_cons,
            lfStep_newline, handle_newline_fire out hc]
        · rw [if_neg hc]
          show edit_buffered_go e 1 ['\n'] f rest ((n + 1) % 256) out = _
          rw [ih rest hrest_len hrest_end ((n + 1) % 256) out, List.foldl_cons,
            lfStep_newline, handle_newline_count out hc]
      | cons a s' =>
        have hshape : (a :: s') ++ '\n' :: rest = ((a :: s') ++ ['\n']) ++ rest := by simp
        rw [hshape, go_content_line e f n a s' rest out hns, List.foldl_append,
          List.foldl_append]
        have ha : ¬ a = '\n' := fun h => hns (h ▸ List.mem_cons_self a s')
        have hs' : '\n' ∉ s' := fun h => hns (List.mem_cons_of_mem a h)
        have hstep : lfStep e (out, n) a = (pushCopies out ['\n'] n ++ [a], 0) := by
          simp [lfStep, ha, handle_char_lf]
        have hinner : List.foldl (lfStep e) (out, n) (a :: s')
            = (pushCopies out ['\n'] n ++ (a :: s'), 0) := by
          rw [List.foldl_cons, hstep, lf_run_content e s' hs' (pushCopies out ['\n'] n ++ [a])]
          simp
        rw [hinner,
          show List.foldl (lfStep e) (pushCopies out ['\n'] n ++ (a :: s'), 0) ['\n']
            = handle_newline e (pushCopies out ['\n'] n ++ (a :: s')) 0 from rfl]
        by_cases h1 : (1 : Nat) = e.newlines
        · rw [if_pos h1, if_pos h1,
            handle_newline_fire (pushCopies out ['\n'] n ++ (a :: s'))
              (show (0 + 1) % 256 = e.newlines from h1)]
          exact ih rest hrest_len hrest_end 0 (pushCopies out ['\n'] n ++ (a :: s') ++ e.replace)
        · rw [if_neg h1, if_neg h1,
            handle_newline_count (pushCopies out ['\n'] n ++ (a :: s'))
              (show ¬ (0 + 1) % 256 = e.newlines from h1),
            show ((0 : Nat) + 1) % 256 = 1 from rfl]
          exact ih rest hrest_len hrest_end 1 (pushCopies out ['\n'] n ++ (a :: s'))

/-! Claim theorems. -/

/-- C1: for the in-memory LF edit with trigger `t` in `1..=255`, counting of
consecutive newlines is modular: a run of exactly `t` newlines (started from a
reset counter) fires the replacement and resets the counter to 0, a run of
`2*t` newlines emits the replacement twice with no literal newlines in
between, and concretely trigger 1 with replacement `"-\n"` on `"foo\n\n\n"`
produces `"foo-\n-\n-\n"`. -/
theorem C1_modular_firing (e : Editor) (out : List Char)
    (h1 : 0 < e.newlines) (h255 : e.newlines ≤ 255) :
    List.foldl (lfStep e) (out, 0) (List.replicate e.newlines '\n')
      = (out ++ e.replace, 0) ∧
    List.foldl (lfStep e) (out, 0) (List.replicate (2 * e.newlines) '\n')
      = (out ++ e.replace ++ e.replace, 0) ∧
    edit (Editor.new ['-', '\n'] 1 NewlineType.Lf) ['f', 'o', 'o', '\n', '\n', '\n']
      = ['f', 'o', 'o', '-', '\n', '-', '\n', '-', '\n'] := by
  refine ⟨lf_run_fire e h255 e.newlines 0 out h1 (by omega), ?_, by decide⟩
  rw [show 2 * e.newlines = e.newlines + e.newlines by omega, List.replicate_add,
    List.foldl_append, lf_run_fire e h255 e.newlines 0 out h1 (by omega),
    lf_run_fire e h255 e.newlines 0 (out ++ e.replace) h1 (by omega)]

/-- Witness for C1 at trigger 2, replacement `"-"`, empty initial output. -/
theorem C1_modular_firing_witness :
    (0 < (2 : Nat) ∧ (2 : Nat) ≤ 255) ∧
    (List.foldl (lfStep (Editor.new ['-'] 2 NewlineType.Lf)) (([], 0))
        (List.replicate 2 '\n') = (['-'], 0) ∧
      List.foldl (lfStep (Editor.new ['-'] 2 NewlineType.Lf)) (([], 0))
        (List.replicate (2 * 2) '\n') = (['-', '-'], 0) ∧
      edit (Editor.new ['-', '\n'] 1 NewlineType.Lf) ['f', 'o', 'o', '\n', '\n', '\n']
        = ['f', 'o', 'o', '-', '\n', '-', '\n', '-', '\n']) :=
  ⟨⟨by decide, by decide⟩,
    C1_modular_firing (Editor.new ['-'] 2 NewlineType.Lf) [] (by decide) (by decide)⟩

set_option maxRecDepth 100000 in
/-- C3 evidence: trigger 0 is not an unconditional identity.  Streaming: after
the final unterminated line `"bar"` the counter 0 equals the trigger, so the
replacement `"Z"` is appended.  In-memory: on 256 consecutive newlines the
`u8` counter wraps to 0 (debug builds panic), 0 equals the trigger, and the
whole run is replaced by `"Z"`. -/
theorem C3_zero_trigger_violation :
    edit_buffered (Editor.new ['Z'] 0 NewlineType.Lf) ['b', 'a', 'r']
      = ['b', 'a', 'r', 'Z'] ∧
    (['b', 'a', 'r', 'Z'] : List Char) ≠ ['b', 'a', 'r'] ∧
    edit (Editor.new ['Z'] 0 NewlineType.Lf) (List.replicate 256 '\n') = ['Z'] :=
  ⟨by decide, by decide, by decide⟩

/-- C5 counterexample: the CRLF in-memory edit does not pass a lone `'\r'`
through; `"a\rb"` becomes `"ab"`. -/
theorem C5_counterexample :
    edit (Editor.new ['X'] 2 NewlineType.Crlf) ['a', '\r', 'b'] = ['a', 'b'] ∧
    edit (Editor.new ['X'] 2 NewlineType.Crlf) ['a', '\r', 'b'] ≠ ['a', '\r', 'b'] := by
  decide

/-- C5 (amended): the CRLF in-memory edit drops every `'\r'` (in particular a
lone one not followed by `'\n'`) from the output; the step on `'\r'` leaves
the state — output and newline counter — unchanged, so deleting a `'\r'` from
the input does not change the result. -/
theorem C5_carriage_return_dropped (e : Editor) (st : List Char × Nat) (xs ys : List Char) :
    crlfStep e st '\r' = st ∧
    edit_crlf e (xs ++ '\r' :: ys) = edit_crlf e (xs ++ ys) := by
  refine ⟨rfl, ?_⟩
  simp only [edit_crlf]
  rw [List.foldl_append, List.foldl_cons, List.foldl_append,
    show crlfStep e (List.foldl (crlfStep e) ([], 0) xs) '\r'
      = List.foldl (crlfStep e) ([], 0) xs from rfl]

/-- C6: the CRLF in-memory edit drives its counter with the `'\n'` half only —
its newline step is the same state transformation as the LF newline step — and
a non-triggering run flushed before an ordinary character is re-emitted as one
two-character `"\r\n"` literal per counted newline. -/
theorem C6_bare_newline_crlf (e : Editor) (out : List Char) (n : Nat) (c : Char) :
    crlfStep e (out, n) '\n' = lfStep e (out, n) '\n' ∧
    (¬ c = '\n' → ¬ c = '\r' →
      crlfStep e (out, n) c
        = (out ++ (List.replicate n ['\r', '\n']).flatten ++ [c], 0)) := by
  refine ⟨rfl, ?_⟩
  intro hn hr
  simp [crlfStep, hn, hr, handle_char_crlf, pushCopies_eq, List.append_assoc]

/-- Witness for C6 at trigger 2, counter 1, character `'x'`. -/
theorem C6_bare_newline_crlf_witness :
    (¬ 'x' = '\n' ∧ ¬ 'x' = '\r') ∧
    crlfStep (Editor.new ['-'] 2 NewlineType.Crlf) (['a'], 1) '\n'
      = lfStep (Editor.new ['-'] 2 NewlineType.Crlf) (['a'], 1) '\n' ∧
    crlfStep (Editor.new ['-'] 2 NewlineType.Crlf) (['a'], 1) 'x'
      = (['a'] ++ (List.replicate 1 ['\r', '\n']).flatten ++ ['x'], 0) :=
  ⟨⟨by decide, by decide⟩,
    (C6_bare_newline_crlf (Editor.new ['-'] 2 NewlineType.Crlf) ['a'] 1 'x').1,
    (C6_bare_newline_crlf (Editor.new ['-'] 2 NewlineType.Crlf) ['a'] 1 'x').2
      (by decide) (by decide)⟩

/-- C7: the factory builds, for any text, trigger and line style, an editor
whose replacement is — Append: trigger copies of the style's literal then the
text; Insert: the text then trigger copies of the literal; Replace: the text
alone — and stores the trigger and line style unchanged.  The builder is a
total function: no input combination is an error. -/
theorem C7_factory_build (text : List Char) (trigger : Nat) (style : NewlineType) :
    Factory.build text trigger EditType.Append style
      = Editor.new ((List.replicate trigger style.as_str).flatten ++ text) trigger style ∧
    Factory.build text trigger EditType.Insert style
      = Editor.new (text ++ (List.replicate trigger style.as_str).flatten) trigger style ∧
    Factory.build text trigger EditType.Replace style = Editor.new text trigger style := by
  refine ⟨?_, ?_, rfl⟩
  · simp [Factory.build, Factory.create_editor, Factory.append_string, Editor.new,
      pushCopies_eq]
  · simp [Factory.build, Factory.create_editor, Factory.insert_string, Editor.new,
      pushCopies_eq]

set_option maxRecDepth 100000 in
/-- C8 evidence: the arithmetic of the editors is not panic-free.  In-memory,
trigger 0: on a run of 256 newlines the `u8` counter increment overflows (a
panic in debug builds; in release it wraps to 0, equals the trigger, and fires
— shown here).  Streaming, CRLF: a line consisting of a bare `"\n"` (1 byte)
underflows `len - newline_len` (a panic in debug builds; in release the wrapped
value makes `truncate` a no-op — shown here: input `"\n"` emits `"\n\r\n"`). -/
theorem C8_overflow_evidence :
    edit (Editor.new ['X'] 0 NewlineType.Lf) (List.replicate 256 '\n') = ['X'] ∧
    edit_buffered (Editor.new ['X'] 9 NewlineType.Crlf) ['\n'] = ['\n', '\r', '\n'] :=
  ⟨by decide, by decide⟩

/-- C9: `edit` is a pure, deterministic function of the configuration and the
input: the call returns the borrowed configuration unchanged, its output is
the value of `edit`, and a second invocation is independent of what the first
was run on — no run-counter state survives between calls. -/
theorem C9_pure_reuse (e : Editor) (i1 i2 : List Char) :
    (edit_call e i1).1 = e ∧
    (edit_call e i1).2 = edit e i1 ∧
    (edit_call (edit_call e i1).1 i2).2 = (edit_call e i2).2 :=
  ⟨rfl, rfl, rfl⟩

/-- C2 counterexample: trigger 3, replacement `"X"`, LF.  The input `"\n\na"`
has a run of two newlines (shorter than the trigger) terminated by the
non-newline `'a'`; the claim requires the output `"\n\na"`.  The streaming
editor instead classifies the final 1-byte line `"a"` by length as a newline,
reaches the trigger and outputs just `"X"` (the in-memory editor complies). -/
theorem C2_counterexample :
    edit_buffered (Editor.new ['X'] 3 NewlineType.Lf) ['\n', '\n', 'a'] = ['X'] ∧
    edit_buffered (Editor.new ['X'] 3 NewlineType.Lf) ['\n', '\n', 'a']
      ≠ ['\n', '\n', 'a'] ∧
    edit (Editor.new ['X'] 3 NewlineType.Lf) ['\n', '\n', 'a'] = ['\n', '\n', 'a'] :=
  ⟨by decide, by decide, by decide⟩

/-- C2 (amended): for a trigger in `1..=255`: (i) the in-memory LF edit emits
a run of `k < trigger` newlines terminated by a non-newline character as `k`
literal newlines immediately before that character, with the counter reset;
(ii) an in-memory LF input that is such a short run ending at end-of-input is
returned unchanged; (iii) the streaming loop, for either style, flushes a
still-pending run count as literal newline sequences when the source is
exhausted; (iv) the streaming LF editor returns a short trailing run
unchanged, and (v) preserves a short run terminated by a final content line
provided that line's byte length differs from the newline length (the
streaming dispatch classifies lines by byte length alone). -/
theorem C2_short_run_flush (e : Editor) (k : Nat) (c : Char) (s out : List Char)
    (nl_len fuel n' : Nat) (nl_str out' : List Char)
    (h255 : e.newlines ≤ 255) (hk : k < e.newlines) (hc : ¬ c = '\n')
    (hlf : e.line_ending = NewlineType.Lf)
    (hs0 : s ≠ []) (hs1 : '\n' ∉ s) (hs2 : ¬ utf8Len s = 1) :
    List.foldl (lfStep e) (out, 0) (List.replicate k '\n' ++ [c])
      = (out ++ List.replicate k '\n' ++ [c], 0) ∧
    edit_lf e (List.replicate k '\n') = List.replicate k '\n' ∧
    edit_buffered_go e nl_len nl_str fuel [] n' out' = pushCopies out' nl_str n' ∧
    edit_buffered e (List.replicate k '\n') = List.replicate k '\n' ∧
    edit_buffered e (List.replicate k '\n' ++ s) = List.replicate k '\n' ++ s := by
  refine ⟨?_, ?_, go_eof e nl_len nl_str fuel n' out', ?_, ?_⟩
  · rw [List.foldl_append, lf_run_count e h255 k 0 out (by omega)]
    show lfStep e (out, 0 + k) c = _
    simp [lfStep, hc, handle_char_lf, pushCopies_single, List.append_assoc]
  · simp only [edit_lf]
    rw [lf_run_count e h255 k 0 [] (by omega)]
    simp [pushCopies_single]
  · simp only [edit_buffered, hlf]
    have hrun := go_nl_run e h255 k (List.replicate k '\n').length 0 [] []
      (by simp) (by omega)
    rw [List.append_nil] at hrun
    rw [hrun, go_eof]
    simp [pushCopies_single]
  · simp only [edit_buffered, hlf]
    obtain ⟨a, s1, rfl⟩ := List.exists_cons_of_ne_nil hs0
    have hrun := go_nl_run e h255 k (List.replicate k '\n' ++ a :: s1).length 0 []
      (a :: s1) (by simp) (by omega)
    rw [hrun, show (List.replicate k '\n' ++ a :: s1).length - k = s1.length + 1
        by simp,
      go_final_line e s1.length (0 + k) a s1 [] hs1 hs2,
      if_neg (show ¬ (0 : Nat) = e.newlines by omega)]
    simp [pushCopies_single]

/-- Witness for C2 at trigger 2, run length 1, terminator `'a'`, final line
`"ab"`, a CRLF flush state for the EOF conjunct. -/
theorem C2_short_run_flush_witness :
    ((2 : Nat) ≤ 255 ∧ (1 : Nat) < 2 ∧ ¬ 'a' = '\n'
      ∧ (Editor.new ['X'] 2 NewlineType.Lf).line_ending = NewlineType.Lf
      ∧ (['a', 'b'] : List Char) ≠ [] ∧ '\n' ∉ (['a', 'b'] : List Char)
      ∧ ¬ utf8Len ['a', 'b'] = 1) ∧
    (List.foldl (lfStep (Editor.new ['X'] 2 NewlineType.Lf)) ((['q'], 0))
        (List.replicate 1 '\n' ++ ['a'])
        = (['q'] ++ List.replicate 1 '\n' ++ ['a'], 0) ∧
      edit_lf (Editor.new ['X'] 2 NewlineType.Lf) (List.replicate 1 '\n')
        = List.replicate 1 '\n' ∧
      edit_buffered_go (Editor.new ['X'] 2 NewlineType.Lf) 2 ['\r', '\n'] 5 [] 2 ['w']
        = pushCopies ['w'] ['\r', '\n'] 2 ∧
      edit_buffered (Editor.new ['X'] 2 NewlineType.Lf) (List.replicate 1 '\n')
        = List.replicate 1 '\n' ∧
      edit_buffered (Editor.new ['X'] 2 NewlineType.Lf) (List.replicate 1 '\n' ++ ['a', 'b'])
        = List.replicate 1 '\n' ++ ['a', 'b']) :=
  ⟨⟨by decide, by decide, by decide, rfl, by decide, by decide, by decide⟩,
    C2_short_run_flush (Editor.new ['X'] 2 NewlineType.Lf) 1 'a' ['a', 'b'] ['q']
      2 5 2 ['\r', '\n'] ['w'] (by decide) (by decide) (by decide) rfl
      (by decide) (by decide) (by decide)⟩

/-- C4 counterexample: the in-memory and streaming editors disagree.  LF,
trigger 2, replacement `"X"`: on `"foo\na"` the in-memory editor returns the
input unchanged while the streaming editor counts the final 1-byte line `"a"`
as a newline, fires, and returns `"fooX"`.  CRLF, trigger 1, replacement
`"-"`: on `"a\nb"` the in-memory editor returns `"a-b"` while the streaming
editor counts the 2-byte line `"a\n"` as a newline and returns `"-b"`. -/
theorem C4_counterexample :
    edit (Editor.new ['X'] 2 NewlineType.Lf) ['f', 'o', 'o', '\n', 'a']
      = ['f', 'o', 'o', '\n', 'a'] ∧
    edit_buffered (Editor.new ['X'] 2 NewlineType.Lf) ['f', 'o', 'o', '\n', 'a']
      = ['f', 'o', 'o', 'X'] ∧
    edit (Editor.new ['-'] 1 NewlineType.Crlf) ['a', '\n', 'b'] = ['a', '-', 'b'] ∧
    edit_buffered (Editor.new ['-'] 1 NewlineType.Crlf) ['a', '\n', 'b'] = ['-', 'b'] ∧
    edit (Editor.new ['X'] 2 NewlineType.Lf) ['f', 'o', 'o', '\n', 'a']
      ≠ edit_buffered (Editor.new ['X'] 2 NewlineType.Lf) ['f', 'o', 'o', '\n', 'a'] :=
  ⟨by decide, by decide, by decide, by decide, by decide⟩

/-- C4 (amended): for every LF-style configuration and every input that is
empty or ends with a newline, the in-memory edit output is byte-for-byte equal
to what the streaming editor writes to its sink over the same content. -/
theorem C4_lf_equivalence (e : Editor) (input : List Char)
    (hlf : e.line_ending = NewlineType.Lf)
    (hend : input = [] ∨ input.getLast? = some '\n') :
    edit e input = edit_buffered e input := by
  simp only [edit, edit_buffered, hlf]
  rw [go_lf_sim e input.length input (Nat.le_refl _) hend 0 []]
  rfl

/-- Witness for C4 at trigger 1, replacement `"-"`, input `"foo\n"`. -/
theorem C4_lf_equivalence_witness :
    ((Editor.new ['-'] 1 NewlineType.Lf).line_ending = NewlineType.Lf ∧
      ((['f', 'o', 'o', '\n'] : List Char) = []
        ∨ (['f', 'o', 'o', '\n'] : List Char).getLast? = some '\n')) ∧
    edit (Editor.new ['-'] 1 NewlineType.Lf) ['f', 'o', 'o', '\n']
      = edit_buffered (Editor.new ['-'] 1 NewlineType.Lf) ['f', 'o', 'o', '\n'] :=
  ⟨⟨rfl, Or.inr (by decide)⟩,
    C4_lf_equivalence (Editor.new ['-'] 1 NewlineType.Lf) ['f', 'o', 'o', '\n']
      rfl (Or.inr (by decide))⟩

/-- C10 counterexample: trigger 0, replacement `"X"`, LF, input `"a"`.  The
final line `"a"` contains content and no terminator, so by the claim the
output should be `"aX"`; but its byte length is 1, so the streaming dispatch
counts it as a newline (comparison fails: pending = 1 ≠ 0) and the EOF flush
yields `"\n"`. -/
theorem C10_counterexample :
    edit_buffered (Editor.new ['X'] 0 NewlineType.Lf) ['a'] = ['\n'] ∧
    edit_buffered (Editor.new ['X'] 0 NewlineType.Lf) ['a'] ≠ ['a', 'X'] :=
  ⟨by decide, by decide⟩

/-- C10 (amended): with trigger 0 in the streaming LF loop, after a final
content line not ending in a newline and whose byte length is not 1 (the LF
newline length), the pending run is flushed, the counter is 0, the `0 = 0`
trigger comparison succeeds and the replacement is written immediately after
the line's content; concretely `"foo"` with replacement `"X"` yields
`"fooX"`. -/
theorem C10_zero_trigger_final_line (e : Editor) (s out : List Char) (n fuel : Nat)
    (h0 : e.newlines = 0) (hs0 : s ≠ []) (hs1 : '\n' ∉ s) (hs2 : ¬ utf8Len s = 1) :
    edit_buffered_go e 1 ['\n'] (fuel + 1) s n out
      = pushCopies out ['\n'] n ++ s ++ e.replace ∧
    edit_buffered (Editor.new ['X'] 0 NewlineType.Lf) ['f', 'o', 'o']
      = ['f', 'o', 'o', 'X'] := by
  obtain ⟨a, s1, rfl⟩ := List.exists_cons_of_ne_nil hs0
  refine ⟨?_, by decide⟩
  rw [go_final_line e fuel n a s1 out hs1 hs2, if_pos h0.symm]

/-- Witness for C10 at pending count 1, final line `"ab"`. -/
theorem C10_zero_trigger_final_line_witness :
    ((Editor.new ['X'] 0 NewlineType.Lf).newlines = 0 ∧ (['a', 'b'] : List Char) ≠ []
      ∧ '\n' ∉ (['a', 'b'] : List Char) ∧ ¬ utf8Len ['a', 'b'] = 1) ∧
    edit_buffered_go (Editor.new ['X'] 0 NewlineType.Lf) 1 ['\n'] (2 + 1) ['a', 'b'] 1 ['q']
      = pushCopies ['q'] ['\n'] 1 ++ ['a', 'b'] ++ ['X'] ∧
    edit_buffered (Editor.new ['X'] 0 NewlineType.Lf) ['f', 'o', 'o']
      = ['f', 'o', 'o', 'X'] :=
  ⟨⟨rfl, by decide, by decide, by decide⟩,
    C10_zero_trigger_final_line (Editor.new ['X'] 0 NewlineType.Lf) ['a', 'b'] ['q'] 1 2
      rfl (by decide) (by decide) (by decide)⟩

end Linurgy
